import Mathlib

/-!
Verification of the vtk-rs232 payment-terminal protocol layer.

The Rust source (src/vtk.rs, src/main.rs) is shallowly embedded below:
  * bytes are `Nat` (with explicit `% 256` / `% 65536` where the source
    truncates with `as u8` / `as u16`),
  * the `HashMap<TlvKey, Vec<u8>>` record set is an association list with
    unique keys (`Tlv.data`); quantifying over all such lists covers every
    iteration order the hash map may exhibit,
  * fallible operations (Rust panics via `.unwrap()`, `Err` returns) are
    `Option` / `Except`,
  * the `loop` of `Tlv::deserialize` is given as a fuel-indexed structural
    recursion `deserLoopF`; fuel `raw.length` always suffices because every
    iteration consumes at least two bytes of the remaining input.
-/

/-- The closed key enumeration from src/vtk.rs lines 13-35. -/
inductive TlvKey where
  | MsgName
  | OperationNum
  | AmountInMinorCurrencyUnit
  | KeepaliveIntervalInSecs
  | OperationTimeoutInSecs
  | EventName
  | EventNum
  | ProductId
  | QrCodeData
  | TcpIpDestantion
  | OutgoingByteCounter
  | SimpleDataBlock
  | ConfirmableDataBlock
  | ProductName
  | PosManagementData
  | LocalTime
  | SysInfo
  | BankingReceipt
  | DisplayTimeInMs
deriving DecidableEq, Repr, Fintype

/-- Wire byte of each key (the `#[repr(u8)]` discriminants, vtk.rs 15-35). -/
def TlvKey.toByte : TlvKey → Nat
  | .MsgName => 0x01
  | .OperationNum => 0x03
  | .AmountInMinorCurrencyUnit => 0x04
  | .KeepaliveIntervalInSecs => 0x05
  | .OperationTimeoutInSecs => 0x06
  | .EventName => 0x07
  | .EventNum => 0x08
  | .ProductId => 0x09
  | .QrCodeData => 0x0A
  | .TcpIpDestantion => 0x0B
  | .OutgoingByteCounter => 0x0C
  | .SimpleDataBlock => 0x0D
  | .ConfirmableDataBlock => 0x0E
  | .ProductName => 0x0F
  | .PosManagementData => 0x10
  | .LocalTime => 0x11
  | .SysInfo => 0x12
  | .BankingReceipt => 0x13
  | .DisplayTimeInMs => 0x14

/-- `num::FromPrimitive::from_u8` for `TlvKey` (derived in vtk.rs line 13):
the partial inverse of `TlvKey.toByte`. -/
def TlvKey.fromByte : Nat → Option TlvKey
  | 0x01 => some .MsgName
  | 0x03 => some .OperationNum
  | 0x04 => some .AmountInMinorCurrencyUnit
  | 0x05 => some .KeepaliveIntervalInSecs
  | 0x06 => some .OperationTimeoutInSecs
  | 0x07 => some .EventName
  | 0x08 => some .EventNum
  | 0x09 => some .ProductId
  | 0x0A => some .QrCodeData
  | 0x0B => some .TcpIpDestantion
  | 0x0C => some .OutgoingByteCounter
  | 0x0D => some .SimpleDataBlock
  | 0x0E => some .ConfirmableDataBlock
  | 0x0F => some .ProductName
  | 0x10 => some .PosManagementData
  | 0x11 => some .LocalTime
  | 0x12 => some .SysInfo
  | 0x13 => some .BankingReceipt
  | 0x14 => some .DisplayTimeInMs
  | _ => none

/-- The record set `Tlv { data: HashMap<TlvKey, Vec<u8>> }` (vtk.rs 37-40),
modelled as an association list.  The hash-map invariant "keys are unique"
is carried as a hypothesis (`keysNodup`) where a theorem needs it. -/
structure Tlv where
  data : List (TlvKey × List Nat)
deriving DecidableEq, Repr

/-- Unique-keys invariant of the underlying `HashMap`. -/
def keysNodup (l : List (TlvKey × List Nat)) : Prop :=
  (l.map Prod.fst).Nodup

/-- `HashMap::get`: value stored under `k`, if any. -/
def lookupKey (k : TlvKey) : List (TlvKey × List Nat) → Option (List Nat)
  | [] => none
  | (k', v) :: rest => if k' = k then some v else lookupKey k rest

/-- `HashMap::insert`: replace the value under `k` in place, or append a
new entry when `k` is absent. -/
def setKey (k : TlvKey) (v : List Nat) : List (TlvKey × List Nat) →
    List (TlvKey × List Nat)
  | [] => [(k, v)]
  | (k', v') :: rest =>
      if k' = k then (k, v) :: rest else (k', v') :: setKey k v rest

/-- `Tlv::new` (vtk.rs 43-47). -/
def Tlv.new : Tlv := ⟨[]⟩

/-- `Tlv::set_bin` / `Tlv::set_str` (vtk.rs 107-113): both insert raw bytes. -/
def Tlv.set_bin (t : Tlv) (key : TlvKey) (v : List Nat) : Tlv :=
  ⟨setKey key v t.data⟩

/-- `Tlv::get_bin` (vtk.rs 103-105). -/
def Tlv.get_bin (t : Tlv) (key : TlvKey) : Option (List Nat) :=
  lookupKey key t.data

/-- `Tlv::deser_one(raw, begin)` (vtk.rs 49-61), acting on the suffix
`raw[begin..]`.  Returns the key byte, the value bytes and the number of
consumed bytes, or `none` when fewer than 2 bytes remain or the declared
length would read past the end. -/
def deser_one (raw : List Nat) : Option (Nat × List Nat × Nat) :=
  if raw.length < 2 then none
  else
    let k := raw.getD 0 0
    let len := raw.getD 1 0
    if raw.length < len + 2 then none
    else some (k, (raw.drop 2).take len, len + 2)

/-- One accumulator update of the `Tlv::deserialize` loop body
(vtk.rs 68-78): a known key is inserted only when not already present
(first occurrence wins); an unknown key byte is dropped. -/
def accInsert (acc : List (TlvKey × List Nat)) (kb : Nat) (v : List Nat) :
    List (TlvKey × List Nat) :=
  match TlvKey.fromByte kb with
  | some key => if lookupKey key acc = none then acc ++ [(key, v)] else acc
  | none => acc

/-- The `loop` of `Tlv::deserialize` (vtk.rs 63-84), with explicit fuel.
Each iteration consumes `len ≥ 2` input bytes, so fuel `raw.length` always
reaches the `deser_one = none` exit of the source loop. -/
def deserLoopF : Nat → List Nat → List (TlvKey × List Nat) →
    List (TlvKey × List Nat)
  | 0, _, acc => acc
  | fuel + 1, raw, acc =>
      match deser_one raw with
      | none => acc
      | some (k, v, len) => deserLoopF fuel (raw.drop len) (accInsert acc k v)

/-- The deserialize loop run to completion. -/
def deserRun (raw : List Nat) (acc : List (TlvKey × List Nat)) :
    List (TlvKey × List Nat) :=
  deserLoopF raw.length raw acc

/-- `Tlv::deserialize` (vtk.rs 63-84). -/
def Tlv.deserialize (raw : List Nat) : Tlv :=
  ⟨deserRun raw []⟩

/-- `Tlv::serialize` (vtk.rs 86-97): key byte, length byte
(`v.len() as u8`, truncating to `% 256`), then the raw value bytes, for
each record in iteration order. -/
def Tlv.serialize (t : Tlv) : List Nat :=
  t.data.foldr (fun kv out => kv.1.toByte :: (kv.2.length % 256) :: (kv.2 ++ out)) []

/-- The 256-entry table `CRC16_CCITT_TABLE` (vtk.rs 244-267), verbatim. -/
def CRC16_CCITT_TABLE : List Nat := [
  0x0000, 0x1021, 0x2042, 0x3063, 0x4084, 0x50A5, 0x60C6, 0x70E7, 0x8108, 0x9129, 0xA14A, 0xB16B,
  0xC18C, 0xD1AD, 0xE1CE, 0xF1EF, 0x1231, 0x0210, 0x3273, 0x2252, 0x52B5, 0x4294, 0x72F7, 0x62D6,
  0x9339, 0x8318, 0xB37B, 0xA35A, 0xD3BD, 0xC39C, 0xF3FF, 0xE3DE, 0x2462, 0x3443, 0x0420, 0x1401,
  0x64E6, 0x74C7, 0x44A4, 0x5485, 0xA56A, 0xB54B, 0x8528, 0x9509, 0xE5EE, 0xF5CF, 0xC5AC, 0xD58D,
  0x3653, 0x2672, 0x1611, 0x0630, 0x76D7, 0x66F6, 0x5695, 0x46B4, 0xB75B, 0xA77A, 0x9719, 0x8738,
  0xF7DF, 0xE7FE, 0xD79D, 0xC7BC, 0x48C4, 0x58E5, 0x6886, 0x78A7, 0x0840, 0x1861, 0x2802, 0x3823,
  0xC9CC, 0xD9ED, 0xE98E, 0xF9AF, 0x8948, 0x9969, 0xA90A, 0xB92B, 0x5AF5, 0x4AD4, 0x7AB7, 0x6A96,
  0x1A71, 0x0A50, 0x3A33, 0x2A12, 0xDBFD, 0xCBDC, 0xFBBF, 0xEB9E, 0x9B79, 0x8B58, 0xBB3B, 0xAB1A,
  0x6CA6, 0x7C87, 0x4CE4, 0x5CC5, 0x2C22, 0x3C03, 0x0C60, 0x1C41, 0xEDAE, 0xFD8F, 0xCDEC, 0xDDCD,
  0xAD2A, 0xBD0B, 0x8D68, 0x9D49, 0x7E97, 0x6EB6, 0x5ED5, 0x4EF4, 0x3E13, 0x2E32, 0x1E51, 0x0E70,
  0xFF9F, 0xEFBE, 0xDFDD, 0xCFFC, 0xBF1B, 0xAF3A, 0x9F59, 0x8F78, 0x9188, 0x81A9, 0xB1CA, 0xA1EB,
  0xD10C, 0xC12D, 0xF14E, 0xE16F, 0x1080, 0x00A1, 0x30C2, 0x20E3, 0x5004, 0x4025, 0x7046, 0x6067,
  0x83B9, 0x9398, 0xA3FB, 0xB3DA, 0xC33D, 0xD31C, 0xE37F, 0xF35E, 0x02B1, 0x1290, 0x22F3, 0x32D2,
  0x4235, 0x5214, 0x6277, 0x7256, 0xB5EA, 0xA5CB, 0x95A8, 0x8589, 0xF56E, 0xE54F, 0xD52C, 0xC50D,
  0x34E2, 0x24C3, 0x14A0, 0x0481, 0x7466, 0x6447, 0x5424, 0x4405, 0xA7DB, 0xB7FA, 0x8799, 0x97B8,
  0xE75F, 0xF77E, 0xC71D, 0xD73C, 0x26D3, 0x36F2, 0x0691, 0x16B0, 0x6657, 0x7676, 0x4615, 0x5634,
  0xD94C, 0xC96D, 0xF90E, 0xE92F, 0x99C8, 0x89E9, 0xB98A, 0xA9AB, 0x5844, 0x4865, 0x7806, 0x6827,
  0x18C0, 0x08E1, 0x3882, 0x28A3, 0xCB7D, 0xDB5C, 0xEB3F, 0xFB1E, 0x8BF9, 0x9BD8, 0xABBB, 0xBB9A,
  0x4A75, 0x5A54, 0x6A37, 0x7A16, 0x0AF1, 0x1AD0, 0x2AB3, 0x3A92, 0xFD2E, 0xED0F, 0xDD6C, 0xCD4D,
  0xBDAA, 0xAD8B, 0x9DE8, 0x8DC9, 0x7C26, 0x6C07, 0x5C64, 0x4C45, 0x3CA2, 0x2C83, 0x1CE0, 0x0CC1,
  0xEF1F, 0xFF3E, 0xCF5D, 0xDF7C, 0xAF9B, 0xBFBA, 0x8FD9, 0x9FF8, 0x6E17, 0x7E36, 0x4E55, 0x5E74,
  0x2E93, 0x3EB2, 0x0ED1, 0x1EF0]

/-- One step of `get_crc` (vtk.rs 272-275): the u16 register update
`crc = (crc << 8) ^ TABLE[(crc >> 8) ^ (0xff & byte)]`, with the `u16`
truncation made explicit as `% 65536`. -/
def crcStep (crc b : Nat) : Nat :=
  ((crc <<< 8) % 65536) ^^^ CRC16_CCITT_TABLE.getD ((crc >>> 8) ^^^ (b &&& 0xff)) 0

/-- `get_crc` (vtk.rs 269-277): CRC-16/CCITT with initial register 0xFFFF. -/
def get_crc (data : List Nat) : Nat :=
  data.foldl crcStep 0xffff

/-- The frame buffer assembled by `Vtk::send` (vtk.rs 212-229):
start marker 0x1F, big-endian `(payload + 2) as u16` length, magic
0x96 0xFB, serialized records (with the message name inserted first),
then the big-endian CRC16 of everything so far. -/
def frameBytes (msg_name : List Nat) (tlv : Tlv) : List Nat :=
  let tlv := tlv.set_bin TlvKey.MsgName msg_name
  let ser := tlv.serialize
  let len := (ser.length + 2) % 65536
  let body := [0x1F, len / 256, len % 256, 0x96, 0xFB] ++ ser
  let crc := get_crc body
  body ++ [crc / 256, crc % 256]

/-- `Vtk::receive` (vtk.rs 231-241): the port fills the first `size` bytes
of a zeroed 512-byte buffer; fewer than 9 bytes is the "too few bytes
received" error; otherwise the whole buffer past the 5 header bytes
(payload, CRC bytes and the zero padding) goes to `Tlv::deserialize`. -/
def Vtk.receive (received : List Nat) : Except String Tlv :=
  let buf := received ++ List.replicate (512 - received.length) 0
  if received.length < 9 then Except.error "too few bytes received"
  else Except.ok (Tlv.deserialize (buf.drop 5))

/-- Validator for Rust's `String::from_utf8` success condition: the byte
list is well-formed UTF-8 (continuation ranges, no overlong forms, no
surrogates, max U+10FFFF). -/
def utf8Cont (b : Nat) : Bool := 128 ≤ b && b ≤ 191

def utf8Valid : List Nat → Bool
  | [] => true
  | b :: rest =>
    if b ≤ 0x7F then utf8Valid rest
    else if 0xC2 ≤ b && b ≤ 0xDF then
      match rest with
      | c1 :: r => utf8Cont c1 && utf8Valid r
      | _ => false
    else if b = 0xE0 then
      match rest with
      | c1 :: c2 :: r => (0xA0 ≤ c1 && c1 ≤ 0xBF) && utf8Cont c2 && utf8Valid r
      | _ => false
    else if b = 0xED then
      match rest with
      | c1 :: c2 :: r => (0x80 ≤ c1 && c1 ≤ 0x9F) && utf8Cont c2 && utf8Valid r
      | _ => false
    else if 0xE1 ≤ b && b ≤ 0xEF then
      match rest with
      | c1 :: c2 :: r => utf8Cont c1 && utf8Cont c2 && utf8Valid r
      | _ => false
    else if b = 0xF0 then
      match rest with
      | c1 :: c2 :: c3 :: r =>
          (0x90 ≤ c1 && c1 ≤ 0xBF) && utf8Cont c2 && utf8Cont c3 && utf8Valid r
      | _ => false
    else if 0xF1 ≤ b && b ≤ 0xF3 then
      match rest with
      | c1 :: c2 :: c3 :: r => utf8Cont c1 && utf8Cont c2 && utf8Cont c3 && utf8Valid r
      | _ => false
    else if b = 0xF4 then
      match rest with
      | c1 :: c2 :: c3 :: r =>
          (0x80 ≤ c1 && c1 ≤ 0x8F) && utf8Cont c2 && utf8Cont c3 && utf8Valid r
      | _ => false
    else false

/-- `String::from_utf8(v)` as an `Option` over the byte list: valid UTF-8
decodes (to the same byte sequence, strings being kept in byte form),
invalid input is `none` (the source's `.unwrap()` then panics). -/
def rustFromUtf8 (v : List Nat) : Option (List Nat) :=
  if utf8Valid v then some v else none

/-- `str::parse::<u32>` on a byte string: an optional leading '+', then one
or more ASCII digits, value below 2^32; anything else is `none`. -/
def parseU32 (s : List Nat) : Option Nat :=
  let digits := match s with
    | 43 :: rest => rest
    | _ => s
  if digits = [] then none
  else if digits.all (fun b => 48 ≤ b && b ≤ 57) then
    let n := digits.foldl (fun a b => a * 10 + (b - 48)) 0
    if n < 4294967296 then some n else none
  else none

/-- `String::from_utf8(v).unwrap().parse::<u32>().unwrap()` as an Option
(`none` models either panic). -/
def rustParseU32 (v : List Nat) : Option Nat :=
  match rustFromUtf8 v with
  | none => none
  | some s => parseU32 s

/-- `u32::to_string` as ASCII bytes. -/
def natToDecimal (n : Nat) : List Nat :=
  (Nat.toDigits 10 n).map Char.toNat

/-- The byte strings of the four message names used by the program. -/
def strSTA : List Nat := [0x53, 0x54, 0x41]

def strVRP : List Nat := [0x56, 0x52, 0x50]

def strFIN : List Nat := [0x46, 0x49, 0x4E]

def strIDL : List Nat := [0x49, 0x44, 0x4C]

/-- The mutable state of `Vtk` that the core logic touches
(vtk.rs 116-119; the serial port handle is I/O and out of scope). -/
structure VtkState where
  operation_num : Nat
deriving DecidableEq, Repr

/-- `Vtk::send` (vtk.rs 212-229) at the state level: the operation counter
is untouched; the frame written to the port is `frameBytes`. -/
def Vtk.send (s : VtkState) (msg_name : List Nat) (tlv : Tlv) :
    VtkState × List Nat :=
  (s, frameBytes msg_name tlv)

/-- `Vtk::send_vrp` (vtk.rs 176-182): increment the operation counter,
then send "VRP" with the amount and the new counter as decimal text.
The emitted message is kept as (name, record set); `Vtk.send` turns it
into wire bytes. -/
def Vtk.send_vrp (s : VtkState) (amount : Nat) : VtkState × (List Nat × Tlv) :=
  let s' : VtkState := ⟨s.operation_num + 1⟩
  let t := Tlv.new
  let t := t.set_bin TlvKey.AmountInMinorCurrencyUnit (natToDecimal amount)
  let t := t.set_bin TlvKey.OperationNum (natToDecimal s'.operation_num)
  (s', (strVRP, t))

/-- `Vtk::send_fin` (vtk.rs 184-189): send "FIN" with the amount and the
current (unchanged) operation counter. -/
def Vtk.send_fin (s : VtkState) (amount : Nat) : VtkState × (List Nat × Tlv) :=
  let t := Tlv.new
  let t := t.set_bin TlvKey.AmountInMinorCurrencyUnit (natToDecimal amount)
  let t := t.set_bin TlvKey.OperationNum (natToDecimal s.operation_num)
  (s, (strFIN, t))

/-- `Vtk::idle` (vtk.rs 191-198): send "IDL" with the given records, or an
empty set. -/
def Vtk.idle (s : VtkState) (add : Option Tlv) : VtkState × (List Nat × Tlv) :=
  let tlv := match add with
    | some tlv => tlv
    | none => Tlv.new
  (s, (strIDL, tlv))

/-- The shared record-scanning loop of `match_sta` / `match_vrp` /
`match_fin` (main.rs 17-27, 38-48, 59-69; the three loop bodies are
identical up to the compared message-name literal).  Walks the record
list; a MsgName record is UTF-8 decoded (`none` = panic on invalid bytes)
and sets the flag when equal to `name`; an amount record is parsed
(`none` = panic on unparseable text) and overwrites the amount. -/
def scanMsg (name : List Nat) :
    List (TlvKey × List Nat) → Bool → Option Nat → Option (Bool × Option Nat)
  | [], flag, amount => some (flag, amount)
  | (k, v) :: rest, flag, amount =>
    let step1 : Option Bool :=
      if k = TlvKey.MsgName then
        match rustFromUtf8 v with
        | none => none
        | some s => some (flag || decide (s = name))
      else some flag
    match step1 with
    | none => none
    | some flag' =>
      let step2 : Option (Option Nat) :=
        if k = TlvKey.AmountInMinorCurrencyUnit then
          match rustParseU32 v with
          | none => none
          | some n => some (some n)
        else some amount
      match step2 with
      | none => none
      | some amount' => scanMsg name rest flag' amount'

/-- `match_sta` (main.rs 13-33): `some (some n)` = matched with amount n,
`some none` = no match, `none` = panic. -/
def match_sta (msg : Tlv) : Option (Option Nat) :=
  match scanMsg strSTA msg.data false none with
  | none => none
  | some (sta, amount) => some (if sta && amount.isSome then amount else none)

/-- `match_vrp` (main.rs 35-54).  Note `vrp && amount.unwrap() == money`:
when the flag is false the `&&` short-circuits and the `unwrap` is never
reached; when the flag is true an absent amount panics (`none`). -/
def match_vrp (msg : Tlv) (money : Nat) : Option Bool :=
  match scanMsg strVRP msg.data false none with
  | none => none
  | some (vrp, amount) =>
    if vrp then
      match amount with
      | none => none
      | some a => some (decide (a = money))
    else some false

/-- `match_fin` (main.rs 56-75), same shape as `match_vrp`. -/
def match_fin (msg : Tlv) (money : Nat) : Option Bool :=
  match scanMsg strFIN msg.data false none with
  | none => none
  | some (fin, amount) =>
    if fin then
      match amount with
      | none => none
      | some a => some (decide (a = money))
    else some false

/-- The local state of the `main` loop (main.rs 78-84). -/
structure LoopState where
  dev : VtkState
  money : Nat
  sta : Bool
  vrp : Bool
  fin : Bool
deriving DecidableEq, Repr

/-- The body of one `main`-loop iteration after a successful receive
(main.rs 95-127): classify the message against STA, then (if started)
VRP, then (if reserved) FIN, emitting the reservation / finalization
messages, and reset to idle when all three flags are set.  Result `none`
models a panic inside one of the matchers; the emitted messages are
collected as (name, record set) pairs in send order. -/
def loopBody (s : LoopState) (msg : Tlv) :
    Option (LoopState × List (List Nat × Tlv)) :=
  match match_sta msg with
  | none => none
  | some res =>
    let (s1, out1) :=
      match res with
      | some n =>
        let r := Vtk.send_vrp s.dev n
        ({ s with dev := r.1, sta := true, money := n }, [r.2])
      | none => (s, ([] : List (List Nat × Tlv)))
    let step2 : Option (LoopState × List (List Nat × Tlv)) :=
      if s1.sta then
        match match_vrp msg s1.money with
        | none => none
        | some true =>
          let r := Vtk.send_fin s1.dev s1.money
          some ({ s1 with dev := r.1, vrp := true }, out1 ++ [r.2])
        | some false => some (s1, out1)
      else some (s1, out1)
    match step2 with
    | none => none
    | some (s2, out2) =>
      let step3 : Option LoopState :=
        if s2.vrp then
          match match_fin msg s2.money with
          | none => none
          | some true => some { s2 with fin := true }
          | some false => some s2
        else some s2
      match step3 with
      | none => none
      | some s3 =>
        if s3.sta && s3.vrp && s3.fin then
          let r := Vtk.idle s3.dev none
          some ({ s3 with dev := r.1, sta := false, vrp := false, fin := false,
                          money := 0 }, out2 ++ [r.2])
        else some (s3, out2)

/-- Spec-side layout (claim C2, following the spec's words): start marker,
big-endian length exactly `2 + len(serialized records)`, magic, serialized
records (message name inserted), big-endian CRC16 over start..records. -/
def specFrameLayout (name : List Nat) (r : List (TlvKey × List Nat)) :
    List Nat :=
  let m := setKey TlvKey.MsgName name r
  let ser := Tlv.serialize ⟨m⟩
  let len := ser.length + 2
  let body := [0x1F, len / 256, len % 256, 0x96, 0xFB] ++ ser
  body ++ [get_crc body / 256, get_crc body % 256]

/-- The message-name flag after the scan loop: set when a MsgName record
equal to `name` was seen. -/
def flagAfter (name : List Nat) (l : List (TlvKey × List Nat))
    (flag : Bool) : Bool :=
  match lookupKey TlvKey.MsgName l with
  | some v => flag || decide (v = name)
  | none => flag

/-- The amount after the scan loop: the parsed amount record if present. -/
def amountAfter (l : List (TlvKey × List Nat)) (am : Option Nat) : Option Nat :=
  match lookupKey TlvKey.AmountInMinorCurrencyUnit l with
  | some v => rustParseU32 v
  | none => am


theorem TlvKey.fromByte_toByte (k : TlvKey) : TlvKey.fromByte k.toByte = some k := by
  cases k <;> rfl

theorem deser_one_some {raw : List Nat} {k : Nat} {v : List Nat} {len : Nat}
    (h : deser_one raw = some (k, v, len)) : 2 ≤ len ∧ len ≤ raw.length := by
  simp only [deser_one] at h
  split at h
  · exact absurd h (by simp)
  · split at h
    · exact absurd h (by simp)
    · simp only [Option.some.injEq, Prod.mk.injEq] at h
      omega

theorem deser_one_short {raw : List Nat} (h : raw.length < 2) :
    deser_one raw = none := by
  unfold deser_one
  simp [h]

theorem deserLoopF_none {raw : List Nat} (h : deser_one raw = none)
    (fuel : Nat) (acc : List (TlvKey × List Nat)) :
    deserLoopF fuel raw acc = acc := by
  cases fuel with
  | zero => rfl
  | succ f => simp [deserLoopF, h]

theorem deserLoopF_some {raw : List Nat} {k : Nat} {v : List Nat} {len : Nat}
    (h : deser_one raw = some (k, v, len)) (fuel : Nat)
    (acc : List (TlvKey × List Nat)) :
    deserLoopF (fuel + 1) raw acc =
      deserLoopF fuel (raw.drop len) (accInsert acc k v) := by
  simp [deserLoopF, h]

theorem deserLoopF_fuel_eq : ∀ (f g : Nat) (raw : List Nat)
    (acc : List (TlvKey × List Nat)), raw.length ≤ f → raw.length ≤ g →
    deserLoopF f raw acc = deserLoopF g raw acc := by
  intro f
  induction f with
  | zero =>
    intro g raw acc hf _
    have hr : raw = [] := List.length_eq_zero.mp (Nat.le_zero.mp hf)
    subst hr
    rw [deserLoopF_none (deser_one_short (by simp)) 0 acc,
        deserLoopF_none (deser_one_short (by simp)) g acc]
  | succ f ih =>
    intro g raw acc hf hg
    cases h : deser_one raw with
    | none => rw [deserLoopF_none h, deserLoopF_none h]
    | some t =>
      obtain ⟨k, v, len⟩ := t
      have hlen := deser_one_some h
      obtain ⟨g', rfl⟩ : ∃ g', g = g' + 1 := by
        cases g with
        | zero => omega
        | succ g' => exact ⟨g', rfl⟩
      rw [deserLoopF_some h f acc, deserLoopF_some h g' acc]
      apply ih
      · simp only [List.length_drop]; omega
      · simp only [List.length_drop]; omega

theorem deserRun_none {raw : List Nat} (h : deser_one raw = none)
    (acc : List (TlvKey × List Nat)) : deserRun raw acc = acc :=
  deserLoopF_none h _ acc

theorem deserRun_step {raw : List Nat} {k : Nat} {v : List Nat} {len : Nat}
    (h : deser_one raw = some (k, v, len)) (acc : List (TlvKey × List Nat)) :
    deserRun raw acc = deserRun (raw.drop len) (accInsert acc k v) := by
  have hl := deser_one_some h
  unfold deserRun
  obtain ⟨m, hm⟩ : ∃ m, raw.length = m + 1 := ⟨raw.length - 1, by omega⟩
  rw [hm, deserLoopF_some h m acc]
  apply deserLoopF_fuel_eq <;> simp only [List.length_drop] <;> omega

theorem lookupKey_cons (k k' : TlvKey) (v : List Nat)
    (l : List (TlvKey × List Nat)) :
    lookupKey k' ((k, v) :: l) = if k = k' then some v else lookupKey k' l := rfl

theorem lookupKey_append_some {k : TlvKey} {v : List Nat} :
    ∀ {l1 : List (TlvKey × List Nat)} (l2 : List (TlvKey × List Nat)),
    lookupKey k l1 = some v → lookupKey k (l1 ++ l2) = some v := by
  intro l1
  induction l1 with
  | nil => intro l2 h; exact absurd h (by simp [lookupKey])
  | cons kv l ih =>
    intro l2 h
    obtain ⟨k', v'⟩ := kv
    rw [List.cons_append, lookupKey_cons]
    rw [lookupKey_cons] at h
    split at h
    · rw [if_pos (by assumption)]; exact h
    · rw [if_neg (by assumption)]; exact ih l2 h

theorem lookupKey_append_none {k : TlvKey} :
    ∀ {l1 : List (TlvKey × List Nat)} (l2 : List (TlvKey × List Nat)),
    lookupKey k l1 = none → lookupKey k (l1 ++ l2) = lookupKey k l2 := by
  intro l1
  induction l1 with
  | nil => intro l2 _; rfl
  | cons kv l ih =>
    intro l2 h
    obtain ⟨k', v'⟩ := kv
    rw [List.cons_append, lookupKey_cons]
    rw [lookupKey_cons] at h
    split at h
    · exact absurd h (by simp)
    · rw [if_neg (by assumption)]; exact ih l2 h

theorem lookupKey_eq_none_of_not_mem :
    ∀ {l : List (TlvKey × List Nat)} {k : TlvKey},
    k ∉ l.map Prod.fst → lookupKey k l = none := by
  intro l
  induction l with
  | nil => intro k _; rfl
  | cons kv l ih =>
    intro k hk
    obtain ⟨k', v'⟩ := kv
    simp only [List.map_cons, List.mem_cons] at hk
    push_neg at hk
    rw [lookupKey_cons, if_neg (fun he => hk.1 he.symm)]
    exact ih hk.2

theorem accInsert_preserves {acc : List (TlvKey × List Nat)} {k : TlvKey}
    {v : List Nat} (kb : Nat) (v' : List Nat)
    (h : lookupKey k acc = some v) :
    lookupKey k (accInsert acc kb v') = some v := by
  unfold accInsert
  cases TlvKey.fromByte kb with
  | none => exact h
  | some key =>
    dsimp only
    split
    · exact lookupKey_append_some _ h
    · exact h

theorem deserLoopF_preserves : ∀ (fuel : Nat) (raw : List Nat)
    (acc : List (TlvKey × List Nat)) (k : TlvKey) (v : List Nat),
    lookupKey k acc = some v →
    lookupKey k (deserLoopF fuel raw acc) = some v := by
  intro fuel
  induction fuel with
  | zero => intro raw acc k v h; exact h
  | succ f ih =>
    intro raw acc k v h
    cases hd : deser_one raw with
    | none => rw [deserLoopF_none hd]; exact h
    | some t =>
      obtain ⟨kb, vv, len⟩ := t
      rw [deserLoopF_some hd]
      exact ih _ _ _ _ (accInsert_preserves kb vv h)

theorem deserRun_preserves (raw : List Nat) (acc : List (TlvKey × List Nat))
    (k : TlvKey) (v : List Nat) (h : lookupKey k acc = some v) :
    lookupKey k (deserRun raw acc) = some v :=
  deserLoopF_preserves _ raw acc k v h

theorem deser_one_replicate_zero (n : Nat) (h : 2 ≤ n) :
    deser_one (List.replicate n 0) = some (0, [], 2) := by
  obtain ⟨m, rfl⟩ : ∃ m, n = m + 2 := ⟨n - 2, by omega⟩
  simp [deser_one, List.replicate_succ]

theorem deserRun_replicate_zero : ∀ (n : Nat)
    (acc : List (TlvKey × List Nat)),
    deserRun (List.replicate n 0) acc = acc := by
  intro n
  induction n using Nat.strong_induction_on with
  | _ n ih =>
    intro acc
    by_cases h : n < 2
    · exact deserRun_none (deser_one_short (by simpa using h)) acc
    · push_neg at h
      obtain ⟨m, rfl⟩ : ∃ m, n = m + 2 := ⟨n - 2, by omega⟩
      rw [deserRun_step (deser_one_replicate_zero _ (by omega)) acc]
      have hdrop : (List.replicate (m + 2) (0 : Nat)).drop 2 =
          List.replicate m 0 := by
        simp [List.replicate_succ]
      have hacc : accInsert acc 0 [] = acc := rfl
      rw [hdrop, hacc]
      exact ih m (by omega) acc

theorem take_replicate_zero : ∀ (lo p : Nat), lo ≤ p →
    (List.replicate p (0 : Nat)).take lo = List.replicate lo 0 := by
  intro lo
  induction lo with
  | zero => simp
  | succ l ih =>
    intro p hp
    obtain ⟨q, rfl⟩ : ∃ q, p = q + 1 := ⟨p - 1, by omega⟩
    simp [List.replicate_succ, ih q (by omega)]

theorem drop_replicate_zero : ∀ (lo p : Nat),
    (List.replicate p (0 : Nat)).drop lo = List.replicate (p - lo) 0 := by
  intro lo
  induction lo with
  | zero => simp
  | succ l ih =>
    intro p
    cases p with
    | zero => simp
    | succ q => simp [List.replicate_succ, ih q]

theorem deserRun_crc_tail (h lo p : Nat) (acc : List (TlvKey × List Nat)) :
    deserRun ([h, lo] ++ List.replicate p 0) acc =
      if lo ≤ p then accInsert acc h (List.replicate lo 0) else acc := by
  by_cases hc : lo ≤ p
  · have hone : deser_one ([h, lo] ++ List.replicate p 0) =
        some (h, List.replicate lo 0, lo + 2) := by
      simp [deser_one, take_replicate_zero lo p hc]
      omega
    rw [deserRun_step hone acc, if_pos hc]
    have hstep : lo + 2 = (lo + 1) + 1 := rfl
    have hdrop : ([h, lo] ++ List.replicate p (0 : Nat)).drop (lo + 2) =
        List.replicate (p - lo) 0 := by
      rw [List.cons_append, List.cons_append, List.nil_append, hstep,
          List.drop_succ_cons, List.drop_succ_cons, drop_replicate_zero]
    rw [hdrop, deserRun_replicate_zero]
  · have hone : deser_one ([h, lo] ++ List.replicate p 0) = none := by
      simp [deser_one]
      omega
    rw [deserRun_none hone acc, if_neg hc]

theorem deserRun_record (kb n : Nat) (v rest : List Nat)
    (acc : List (TlvKey × List Nat)) (hn : v.length = n) :
    deserRun (kb :: n :: (v ++ rest)) acc = deserRun rest (accInsert acc kb v) := by
  have hdrop2 : List.drop 2 (kb :: n :: (v ++ rest)) = v ++ rest := rfl
  have hone : deser_one (kb :: n :: (v ++ rest)) = some (kb, v, n + 2) := by
    unfold deser_one
    rw [if_neg (by simp)]
    simp only [List.getD_cons_zero, List.getD_cons_succ]
    rw [if_neg (by simp; omega), hdrop2, List.take_left' hn]
  rw [deserRun_step hone acc]
  have hstep : n + 2 = (n + 1) + 1 := rfl
  have hdrop : (kb :: n :: (v ++ rest)).drop (n + 2) = rest := by
    rw [hstep, List.drop_succ_cons, List.drop_succ_cons, List.drop_left' hn]
  rw [hdrop]

theorem serialize_nil : Tlv.serialize ⟨[]⟩ = [] := rfl

theorem serialize_cons (kv : TlvKey × List Nat) (l : List (TlvKey × List Nat)) :
    Tlv.serialize ⟨kv :: l⟩ =
      kv.1.toByte :: (kv.2.length % 256) :: (kv.2 ++ Tlv.serialize ⟨l⟩) := rfl

theorem deserRun_serialize : ∀ (m : List (TlvKey × List Nat)) (rest : List Nat)
    (acc : List (TlvKey × List Nat)),
    (∀ kv ∈ m, kv.2.length ≤ 255) →
    deserRun (Tlv.serialize ⟨m⟩ ++ rest) acc =
      deserRun rest (m.foldl (fun a kv => accInsert a kv.1.toByte kv.2) acc) := by
  intro m
  induction m with
  | nil => intro rest acc _; rfl
  | cons kv l ih =>
    intro rest acc hb
    have hkv : kv.2.length ≤ 255 := hb kv (by simp)
    have hmod : kv.2.length % 256 = kv.2.length := Nat.mod_eq_of_lt (by omega)
    rw [serialize_cons]
    have hassoc : (kv.1.toByte :: (kv.2.length % 256) :: (kv.2 ++ Tlv.serialize ⟨l⟩)) ++ rest
        = kv.1.toByte :: (kv.2.length % 256) :: (kv.2 ++ (Tlv.serialize ⟨l⟩ ++ rest)) := by
      simp [List.append_assoc]
    rw [hassoc, hmod, deserRun_record kv.1.toByte kv.2.length kv.2 _ acc rfl,
        ih _ _ (fun kv' h => hb kv' (by simp [h]))]
    rfl

theorem accInsert_toByte (acc : List (TlvKey × List Nat)) (k : TlvKey)
    (v : List Nat) :
    accInsert acc k.toByte v =
      if lookupKey k acc = none then acc ++ [(k, v)] else acc := by
  unfold accInsert
  rw [TlvKey.fromByte_toByte]

theorem foldl_accInsert_fresh : ∀ (m : List (TlvKey × List Nat))
    (acc : List (TlvKey × List Nat)), keysNodup m →
    (∀ k ∈ m.map Prod.fst, lookupKey k acc = none) →
    m.foldl (fun a kv => accInsert a kv.1.toByte kv.2) acc = acc ++ m := by
  intro m
  induction m with
  | nil => intro acc _ _; simp
  | cons kv l ih =>
    intro acc hnd hfresh
    obtain ⟨k, v⟩ := kv
    have h1 : lookupKey k acc = none := hfresh k (by simp)
    simp only [List.foldl_cons]
    rw [accInsert_toByte, if_pos h1]
    have hnd' : keysNodup l := by
      have := hnd
      simp only [keysNodup, List.map_cons, List.nodup_cons] at this
      exact this.2
    have hknotin : k ∉ l.map Prod.fst := by
      have := hnd
      simp only [keysNodup, List.map_cons, List.nodup_cons] at this
      exact this.1
    rw [ih (acc ++ [(k, v)]) hnd' ?fresh]
    · simp
    case fresh =>
      intro k' hk'
      have hne : k ≠ k' := fun he => hknotin (he ▸ hk')
      rw [lookupKey_append_none _ (hfresh k' (by simp [hk']))]
      simp [lookupKey, hne]

theorem deserRun_serialize_nodup (m : List (TlvKey × List Nat))
    (rest : List Nat) (hnd : keysNodup m)
    (hb : ∀ kv ∈ m, kv.2.length ≤ 255) :
    deserRun (Tlv.serialize ⟨m⟩ ++ rest) [] = deserRun rest m := by
  rw [deserRun_serialize m rest [] hb,
      foldl_accInsert_fresh m [] hnd (fun k _ => rfl)]
  simp

theorem lookupKey_setKey_self (k : TlvKey) (v : List Nat) :
    ∀ l : List (TlvKey × List Nat), lookupKey k (setKey k v l) = some v := by
  intro l
  induction l with
  | nil => simp [setKey, lookupKey]
  | cons kv rest ih =>
    obtain ⟨k', v'⟩ := kv
    by_cases h : k' = k
    · simp [setKey, h, lookupKey]
    · simp [setKey, h, lookupKey, ih]

theorem lookupKey_setKey_ne (k k' : TlvKey) (v : List Nat) (hne : k ≠ k') :
    ∀ l : List (TlvKey × List Nat),
    lookupKey k' (setKey k v l) = lookupKey k' l := by
  intro l
  induction l with
  | nil => simp [setKey, lookupKey, hne]
  | cons kv rest ih =>
    obtain ⟨k'', v''⟩ := kv
    by_cases h : k'' = k
    · subst h
      simp [setKey, lookupKey, hne]
    · simp [setKey, h, lookupKey, ih]

theorem keys_setKey_subset (k : TlvKey) (v : List Nat) :
    ∀ (l : List (TlvKey × List Nat)) (x : TlvKey),
    x ∈ (setKey k v l).map Prod.fst → x = k ∨ x ∈ l.map Prod.fst := by
  intro l
  induction l with
  | nil => intro x hx; simp [setKey] at hx; exact Or.inl hx
  | cons kv rest ih =>
    intro x hx
    obtain ⟨k', v'⟩ := kv
    by_cases h : k' = k
    · simp [setKey, h] at hx
      rcases hx with hx | hx
      · exact Or.inl hx
      · exact Or.inr (by simp [hx])
    · simp [setKey, h] at hx
      rcases hx with hx | hx
      · exact Or.inr (by simp [hx])
      · rcases ih x (by simpa using hx) with h1 | h1
        · exact Or.inl h1
        · exact Or.inr (by simp [h1])

theorem keysNodup_setKey (k : TlvKey) (v : List Nat) :
    ∀ l : List (TlvKey × List Nat), keysNodup l → keysNodup (setKey k v l) := by
  intro l
  induction l with
  | nil => intro _; simp [setKey, keysNodup]
  | cons kv rest ih =>
    intro hnd
    obtain ⟨k', v'⟩ := kv
    simp only [keysNodup, List.map_cons, List.nodup_cons] at hnd
    by_cases h : k' = k
    · subst h
      simp only [setKey, if_pos rfl]
      simpa [keysNodup] using hnd
    · simp only [setKey, if_neg h]
      simp only [keysNodup, List.map_cons, List.nodup_cons]
      constructor
      · intro hmem
        rcases keys_setKey_subset k v rest k' hmem with h1 | h1
        · exact h h1
        · exact hnd.1 h1
      · exact ih hnd.2

theorem mem_setKey (k : TlvKey) (v : List Nat) :
    ∀ (l : List (TlvKey × List Nat)) (kv : TlvKey × List Nat),
    kv ∈ setKey k v l → kv = (k, v) ∨ kv ∈ l := by
  intro l
  induction l with
  | nil => intro kv h; simp [setKey] at h; exact Or.inl h
  | cons kv0 rest ih =>
    intro kv h
    obtain ⟨k', v'⟩ := kv0
    by_cases he : k' = k
    · simp [setKey, he] at h
      rcases h with h | h
      · exact Or.inl h
      · exact Or.inr (by simp [h])
    · simp [setKey, he] at h
      rcases h with h | h
      · exact Or.inr (by simp [h])
      · rcases ih kv h with h1 | h1
        · exact Or.inl h1
        · exact Or.inr (by simp [h1])

theorem serialize_length : ∀ m : List (TlvKey × List Nat),
    (Tlv.serialize ⟨m⟩).length =
      m.foldr (fun kv n => kv.2.length + 2 + n) 0 := by
  intro m
  induction m with
  | nil => rfl
  | cons kv l ih =>
    rw [serialize_cons]
    simp only [List.length_cons, List.length_append, List.foldr_cons, ih]
    omega

theorem serialize_length_le : ∀ m : List (TlvKey × List Nat),
    (∀ kv ∈ m, kv.2.length ≤ 255) →
    (Tlv.serialize ⟨m⟩).length ≤ 257 * m.length := by
  intro m
  induction m with
  | nil => intro _; simp [serialize_nil]
  | cons kv l ih =>
    intro hb
    rw [serialize_cons]
    simp only [List.length_cons, List.length_append]
    have h1 : kv.2.length ≤ 255 := hb kv (by simp)
    have h2 := ih (fun kv' h => hb kv' (by simp [h]))
    omega

theorem nodup_length_le_19 (m : List (TlvKey × List Nat))
    (hnd : keysNodup m) : m.length ≤ 19 := by
  have h1 := List.Nodup.length_le_card hnd
  have h2 : Fintype.card TlvKey = 19 := rfl
  simpa [h2] using h1

theorem serialize_length_ge_2 (m : List (TlvKey × List Nat))
    (h : m ≠ []) : 2 ≤ (Tlv.serialize ⟨m⟩).length := by
  cases m with
  | nil => exact absurd rfl h
  | cons kv l =>
    rw [serialize_cons]
    simp

set_option maxRecDepth 4000 in
theorem crcTable_lt : ∀ x ∈ CRC16_CCITT_TABLE, x < 65536 := by decide

theorem getD_crcTable_lt (i : Nat) : CRC16_CCITT_TABLE.getD i 0 < 65536 := by
  rw [List.getD_eq_getElem?_getD]
  cases h : CRC16_CCITT_TABLE[i]? with
  | none => simp
  | some x =>
    simp only [h, Option.getD_some]
    exact crcTable_lt x (List.getElem?_mem h)

theorem crcStep_lt (c b : Nat) : crcStep c b < 65536 := by
  have h1 : (c <<< 8) % 65536 < 65536 := Nat.mod_lt _ (by omega)
  have h2 := getD_crcTable_lt ((c >>> 8) ^^^ (b &&& 0xff))
  have he : (65536 : Nat) = 2 ^ 16 := by norm_num
  unfold crcStep
  rw [he] at h1 h2 ⊢
  exact Nat.xor_lt_two_pow h1 h2

theorem get_crc_lt (l : List Nat) : get_crc l < 65536 := by
  have haux : ∀ (l : List Nat) (c : Nat), c < 65536 →
      List.foldl crcStep c l < 65536 := by
    intro l
    induction l with
    | nil => intro c hc; exact hc
    | cons b t ih => intro c _; exact ih (crcStep c b) (crcStep_lt c b)
  exact haux l 0xffff (by norm_num)

theorem get_crc_append_byte (l : List Nat) (b : Nat) :
    get_crc (l ++ [b]) = crcStep (get_crc l) b := by
  unfold get_crc
  rw [List.foldl_append]
  rfl

theorem scanMsg_cons_msgname (name v : List Nat)
    (rest : List (TlvKey × List Nat)) (flag : Bool) (am : Option Nat)
    (hval : utf8Valid v = true) :
    scanMsg name ((TlvKey.MsgName, v) :: rest) flag am =
      scanMsg name rest (flag || decide (v = name)) am := by
  simp [scanMsg, rustFromUtf8, hval]

theorem scanMsg_cons_amount (name v : List Nat)
    (rest : List (TlvKey × List Nat)) (flag : Bool) (am : Option Nat) (n : Nat)
    (hp : rustParseU32 v = some n) :
    scanMsg name ((TlvKey.AmountInMinorCurrencyUnit, v) :: rest) flag am =
      scanMsg name rest flag (some n) := by
  simp [scanMsg, hp]

theorem scanMsg_cons_other (name : List Nat) (k : TlvKey) (v : List Nat)
    (rest : List (TlvKey × List Nat)) (flag : Bool) (am : Option Nat)
    (h1 : k ≠ TlvKey.MsgName) (h2 : k ≠ TlvKey.AmountInMinorCurrencyUnit) :
    scanMsg name ((k, v) :: rest) flag am = scanMsg name rest flag am := by
  simp [scanMsg, h1, h2]

theorem scanMsg_eq (name : List Nat) :
    ∀ (l : List (TlvKey × List Nat)) (flag : Bool) (am : Option Nat),
    keysNodup l →
    (∀ v, lookupKey TlvKey.MsgName l = some v → utf8Valid v = true) →
    (∀ v, lookupKey TlvKey.AmountInMinorCurrencyUnit l = some v →
      (rustParseU32 v).isSome) →
    scanMsg name l flag am = some (flagAfter name l flag, amountAfter l am) := by
  intro l
  induction l with
  | nil => intro flag am _ _ _; rfl
  | cons kv rest ih =>
    intro flag am hnd hname hamt
    obtain ⟨k, v⟩ := kv
    have hnd' := hnd
    simp only [keysNodup, List.map_cons, List.nodup_cons] at hnd'
    obtain ⟨hknotin, hndrest⟩ := hnd'
    by_cases hm : k = TlvKey.MsgName
    · subst hm
      have hl : lookupKey TlvKey.MsgName ((TlvKey.MsgName, v) :: rest) =
          some v := by simp [lookupKey_cons]
      have hval : utf8Valid v = true := hname v hl
      rw [scanMsg_cons_msgname name v rest flag am hval]
      rw [ih (flag || decide (v = name)) am hndrest ?hn ?ha]
      · have h1 : lookupKey TlvKey.MsgName rest = none :=
          lookupKey_eq_none_of_not_mem hknotin
        simp [flagAfter, amountAfter, lookupKey_cons, h1, hl]
      case hn =>
        intro v' h
        rw [lookupKey_eq_none_of_not_mem hknotin] at h
        cases h
      case ha =>
        intro v' h
        apply hamt v'
        rw [lookupKey_cons]
        simpa using h
    · by_cases ha : k = TlvKey.AmountInMinorCurrencyUnit
      · subst ha
        have hl : lookupKey TlvKey.AmountInMinorCurrencyUnit
            ((TlvKey.AmountInMinorCurrencyUnit, v) :: rest) = some v := by
          simp [lookupKey_cons]
        obtain ⟨n, hp⟩ := Option.isSome_iff_exists.mp (hamt v hl)
        rw [scanMsg_cons_amount name v rest flag am n hp]
        rw [ih flag (some n) hndrest ?hn2 ?ha2]
        · have h1 : lookupKey TlvKey.AmountInMinorCurrencyUnit rest = none :=
            lookupKey_eq_none_of_not_mem hknotin
          simp [flagAfter, amountAfter, lookupKey_cons, h1, hl, hp]
        case hn2 =>
          intro v' h
          apply hname v'
          rw [lookupKey_cons]
          simpa using h
        case ha2 =>
          intro v' h
          rw [lookupKey_eq_none_of_not_mem hknotin] at h
          cases h
      · rw [scanMsg_cons_other name k v rest flag am hm ha]
        rw [ih flag am hndrest ?hn3 ?ha3]
        · simp [flagAfter, amountAfter, lookupKey_cons, hm, ha]
        case hn3 =>
          intro v' h
          apply hname v'
          rw [lookupKey_cons]
          simpa [hm] using h
        case ha3 =>
          intro v' h
          apply hamt v'
          rw [lookupKey_cons]
          simpa [ha] using h

set_option maxRecDepth 4000 in
/-- C3: `get_crc` is a pure total function implementing the CCITT CRC-16
variant: the 256-entry fixed table, the register starting at 0xFFFF and
updated per byte to `(register << 8) XOR table[(register >> 8) XOR byte]`
in truncating 16-bit arithmetic (the register always stays below 2^16),
and `get_crc [] = 0xFFFF`.  Totality is by construction: `get_crc` is a
Lean function defined for every byte list. -/
theorem C3_get_crc_ccitt :
    CRC16_CCITT_TABLE.length = 256 ∧
    get_crc [] = 0xffff ∧
    (∀ (l : List Nat) (b : Nat), get_crc (l ++ [b]) =
      ((get_crc l <<< 8) % 65536) ^^^
        CRC16_CCITT_TABLE.getD ((get_crc l >>> 8) ^^^ (b &&& 0xff)) 0) ∧
    (∀ l : List Nat, get_crc l < 65536) := by
  refine ⟨by decide, rfl, ?_, get_crc_lt⟩
  intro l b
  exact get_crc_append_byte l b

/-- C6 counterexample: the claim says the operation counter is incremented
on every outbound "FIN" message, but `Vtk::send_fin` leaves the counter
unchanged: from counter 5 it stays 5, not 6. -/
theorem C6_counterexample :
    (Vtk.send_fin ⟨5⟩ 100).1.operation_num = 5 ∧
    (Vtk.send_fin ⟨5⟩ 100).1.operation_num ≠ 5 + 1 := by
  exact ⟨rfl, by decide⟩

/-- C6 (amended): the operation counter is incremented (by exactly one) on
every outbound reservation ("VRP", `Vtk.send_vrp`) message; an outbound
finalization ("FIN", `Vtk.send_fin`) message carries the current counter
unchanged; `idle` and `send` leave it unchanged as well — hence no core
operation ever decreases it. -/
theorem C6_operation_counter :
    (∀ (s : VtkState) (amount : Nat),
      (Vtk.send_vrp s amount).1.operation_num = s.operation_num + 1) ∧
    (∀ (s : VtkState) (amount : Nat),
      (Vtk.send_fin s amount).1.operation_num = s.operation_num) ∧
    (∀ (s : VtkState) (add : Option Tlv),
      (Vtk.idle s add).1.operation_num = s.operation_num) ∧
    (∀ (s : VtkState) (name : List Nat) (t : Tlv),
      (Vtk.send s name t).1.operation_num = s.operation_num) ∧
    (∀ (s : VtkState) (amount : Nat),
      s.operation_num ≤ (Vtk.send_vrp s amount).1.operation_num ∧
      s.operation_num ≤ (Vtk.send_fin s amount).1.operation_num) :=
  ⟨fun _ _ => rfl, fun _ _ => rfl, fun _ _ => rfl, fun _ _ _ => rfl,
   fun s _ => ⟨Nat.le_succ s.operation_num, Nat.le_refl _⟩⟩

/-- C9: record decode is total (it returns a `Tlv` for every byte list, by
construction) and only ever stops early: with fewer than 2 remaining bytes
it stops with no partial record; when the declared length would read past
the end of the buffer it stops with no partial record; and a record whose
key byte is unknown is consumed and skipped without affecting the
remaining records. -/
theorem C9_deserialize_total_stops :
    (∀ raw : List Nat, raw.length < 2 → Tlv.deserialize raw = ⟨[]⟩) ∧
    (∀ (k n : Nat) (v : List Nat), v.length < n →
      Tlv.deserialize (k :: n :: v) = ⟨[]⟩) ∧
    (∀ (kb n : Nat) (v rest : List Nat), TlvKey.fromByte kb = none →
      v.length = n →
      Tlv.deserialize (kb :: n :: (v ++ rest)) = Tlv.deserialize rest) := by
  refine ⟨?short, ?past, ?unknown⟩
  case short =>
    intro raw h
    unfold Tlv.deserialize
    rw [deserRun_none (deser_one_short h)]
  case past =>
    intro k n v h
    unfold Tlv.deserialize
    rw [deserRun_none ?none]
    case none =>
      simp only [deser_one, List.length_cons]
      rw [if_neg (by omega)]
      simp only [List.getD_cons_zero, List.getD_cons_succ]
      rw [if_pos (by omega)]
  case unknown =>
    intro kb n v rest hkb hn
    unfold Tlv.deserialize
    rw [deserRun_record kb n v rest [] hn]
    have : accInsert [] kb v = [] := by
      unfold accInsert
      rw [hkb]
    rw [this]

/-- C8: first occurrence wins on duplicate keys: decoding two well-formed
one-byte records under the same known key yields the first value — also
with arbitrary trailing bytes after the duplicate, whose processing can
never overwrite the already-stored value. -/
theorem C8_first_occurrence_wins :
    (∀ (K : TlvKey) (A B : Nat),
      Tlv.deserialize [K.toByte, 1, A, K.toByte, 1, B] = ⟨[(K, [A])]⟩) ∧
    (∀ (K : TlvKey) (A B : Nat) (rest : List Nat),
      lookupKey K (Tlv.deserialize
        ([K.toByte, 1, A, K.toByte, 1, B] ++ rest)).data = some [A]) := by
  have hstep : ∀ (K : TlvKey) (A B : Nat) (rest : List Nat),
      deserRun ([K.toByte, 1, A, K.toByte, 1, B] ++ rest) [] =
        deserRun rest [(K, [A])] := by
    intro K A B rest
    have e1 : ([K.toByte, 1, A, K.toByte, 1, B] ++ rest) =
        K.toByte :: 1 :: ([A] ++ (K.toByte :: 1 :: ([B] ++ rest))) := by
      simp
    rw [e1, deserRun_record K.toByte 1 [A] _ [] rfl]
    have e2 : accInsert [] K.toByte [A] = [(K, [A])] := by
      rw [accInsert_toByte]
      simp [lookupKey]
    rw [e2, deserRun_record K.toByte 1 [B] _ [(K, [A])] rfl]
    have e3 : accInsert [(K, [A])] K.toByte [B] = [(K, [A])] := by
      rw [accInsert_toByte]
      simp [lookupKey]
    rw [e3]
  constructor
  · intro K A B
    unfold Tlv.deserialize
    have := hstep K A B []
    simp only [List.append_nil] at this
    rw [this]
    rfl
  · intro K A B rest
    unfold Tlv.deserialize
    rw [hstep K A B rest]
    exact deserRun_preserves rest [(K, [A])] K [A] (by simp [lookupKey])

/-- C10 (implicit): `serialize` on a record whose value exceeds 255 bytes
raises no error — the length byte is the value length modulo 256 while all
value bytes are appended — and the resulting stream does not decode back
to the original record set (the key decodes to a truncated value). -/
theorem C10_overlong_value :
    ∀ (k : TlvKey) (v : List Nat), 255 < v.length →
      Tlv.serialize ⟨[(k, v)]⟩ = k.toByte :: (v.length % 256) :: v ∧
      lookupKey k (Tlv.deserialize (Tlv.serialize ⟨[(k, v)]⟩)).data =
        some (v.take (v.length % 256)) ∧
      Tlv.deserialize (Tlv.serialize ⟨[(k, v)]⟩) ≠ ⟨[(k, v)]⟩ := by
  intro k v hv
  have hser : Tlv.serialize ⟨[(k, v)]⟩ = k.toByte :: (v.length % 256) :: v := by
    rw [serialize_cons]
    simp [serialize_nil]
  have hlt : v.length % 256 < v.length := by
    have := Nat.mod_lt v.length (show 0 < 256 by omega)
    omega
  have hsplit : v = v.take (v.length % 256) ++ v.drop (v.length % 256) := by
    simp
  have htklen : (v.take (v.length % 256)).length = v.length % 256 := by
    simp [List.length_take]
    omega
  have hform : k.toByte :: (v.length % 256) :: v =
      k.toByte :: (v.length % 256) ::
        (v.take (v.length % 256) ++ v.drop (v.length % 256)) := by
    rw [← hsplit]
  have hdec : Tlv.deserialize (k.toByte :: (v.length % 256) :: v) =
      ⟨deserRun (v.drop (v.length % 256)) [(k, v.take (v.length % 256))]⟩ := by
    unfold Tlv.deserialize
    rw [hform, deserRun_record k.toByte (v.length % 256) (v.take (v.length % 256))
        (v.drop (v.length % 256)) [] htklen]
    rw [accInsert_toByte]
    simp [lookupKey]
  have hlook : lookupKey k (Tlv.deserialize (k.toByte :: (v.length % 256) :: v)).data =
      some (v.take (v.length % 256)) := by
    rw [hdec]
    exact deserRun_preserves _ _ k _ (by simp [lookupKey])
  refine ⟨hser, by rw [hser]; exact hlook, ?_⟩
  rw [hser]
  intro he
  have := congrArg (fun t => lookupKey k t.data) he
  simp only [hlook] at this
  have hvv : v.take (v.length % 256) = v := by
    simpa [lookupKey] using this
  have := congrArg List.length hvv
  rw [htklen] at this
  omega

/-- Witness for C10 at a concrete input: a 256-byte value under key
MsgName. -/
theorem C10_overlong_value_witness :
    Tlv.serialize ⟨[(TlvKey.MsgName, List.replicate 256 0)]⟩ =
      TlvKey.MsgName.toByte ::
        ((List.replicate 256 (0 : Nat)).length % 256) :: List.replicate 256 0 ∧
    lookupKey TlvKey.MsgName (Tlv.deserialize (Tlv.serialize
        ⟨[(TlvKey.MsgName, List.replicate 256 0)]⟩)).data =
      some ((List.replicate 256 (0 : Nat)).take
        ((List.replicate 256 (0 : Nat)).length % 256)) ∧
    Tlv.deserialize (Tlv.serialize ⟨[(TlvKey.MsgName, List.replicate 256 0)]⟩) ≠
      ⟨[(TlvKey.MsgName, List.replicate 256 0)]⟩ :=
  C10_overlong_value TlvKey.MsgName (List.replicate 256 0)
    (by rw [List.length_replicate]; decide)

/-- C4 (amended): `Vtk::receive` fails exactly when fewer than 9 bytes are
received, and then with the "too few bytes received" error, never with a
partial record set; with at least 9 bytes it never fails and returns the
record decode of the padded buffer minus the 5 header bytes.  No CRC
verification is performed (success never depends on the CRC field), but —
amending the claim — the CRC bytes are fed to the record decoder, so a
frame with a mismatched CRC field can decode to a different record set
(see the counterexample). -/
theorem C4_receive_behavior :
    ∀ received : List Nat,
      ((∃ t, Vtk.receive received = Except.ok t) ↔ 9 ≤ received.length) ∧
      (received.length < 9 →
        Vtk.receive received = Except.error "too few bytes received") ∧
      (9 ≤ received.length →
        Vtk.receive received = Except.ok (Tlv.deserialize
          ((received ++ List.replicate (512 - received.length) 0).drop 5))) := by
  intro received
  by_cases h : received.length < 9
  · refine ⟨?_, fun _ => ?_, fun h9 => absurd h9 (by omega)⟩
    · constructor
      · intro ⟨t, ht⟩
        simp [Vtk.receive, h] at ht
      · intro h9; omega
    · simp [Vtk.receive, h]
  · refine ⟨?_, fun h9 => absurd h9 h, fun _ => ?_⟩
    · constructor
      · intro _; omega
      · intro _
        refine ⟨Tlv.deserialize ((received ++
          List.replicate (512 - received.length) 0).drop 5), ?_⟩
        simp [Vtk.receive, h]
    · simp [Vtk.receive, h]

/-- Witness for C4 at a concrete 11-byte frame. -/
theorem C4_receive_behavior_witness :
    Vtk.receive [0x1F, 0, 6, 0x96, 0xFB, 1, 2, 0x41, 0x42, 0xAC, 0xBE] =
      Except.ok (Tlv.deserialize
        (([0x1F, 0, 6, 0x96, 0xFB, 1, 2, 0x41, 0x42, 0xAC, 0xBE] ++
          List.replicate
            (512 - ([0x1F, 0, 6, 0x96, 0xFB, 1, 2, 0x41, 0x42, 0xAC,
              0xBE] : List Nat).length) 0).drop 5)) :=
  (C4_receive_behavior
    [0x1F, 0, 6, 0x96, 0xFB, 1, 2, 0x41, 0x42, 0xAC, 0xBE]).2.2 (by decide)

set_option maxRecDepth 40000 in
/-- C4 counterexample: two received buffers that differ only in the
two-byte CRC field — the first carries the CRC16 that matches its
contents (0xACBE), the second a mismatched CRC — decode to different
record sets, refuting "a frame whose CRC field does not match its
contents decodes the same as one whose CRC matches": the mismatched CRC
bytes 0x03 0x00 parse as an empty OperationNum record. -/
theorem C4_counterexample :
    get_crc [0x1F, 0, 6, 0x96, 0xFB, 1, 2, 0x41, 0x42] = 0xACBE ∧
    Vtk.receive [0x1F, 0, 6, 0x96, 0xFB, 1, 2, 0x41, 0x42, 0xAC, 0xBE] ≠
      Vtk.receive [0x1F, 0, 6, 0x96, 0xFB, 1, 2, 0x41, 0x42, 0x03, 0x00] := by
  constructor
  · decide
  · intro he
    have h2 : (match Vtk.receive [0x1F, 0, 6, 0x96, 0xFB, 1, 2, 0x41, 0x42,
          0xAC, 0xBE] with
        | Except.ok t => lookupKey TlvKey.OperationNum t.data
        | Except.error _ => none) =
      (match Vtk.receive [0x1F, 0, 6, 0x96, 0xFB, 1, 2, 0x41, 0x42,
          0x03, 0x00] with
        | Except.ok t => lookupKey TlvKey.OperationNum t.data
        | Except.error _ => none) := by rw [he]
    exact absurd h2 (by decide)

/-- C7 (amended): when a handshake message name matches but the amount
field is absent, `match_vrp` and `match_fin` fail hard (the
`amount.unwrap()` panic, modelled as `none`), but `match_sta` does not:
it checks `amount.is_some()` and returns a plain no-match. -/
theorem C7_missing_amount :
    ∀ (msg : Tlv) (money : Nat),
    keysNodup msg.data →
    lookupKey TlvKey.AmountInMinorCurrencyUnit msg.data = none →
    (lookupKey TlvKey.MsgName msg.data = some strVRP →
      match_vrp msg money = none) ∧
    (lookupKey TlvKey.MsgName msg.data = some strFIN →
      match_fin msg money = none) ∧
    (lookupKey TlvKey.MsgName msg.data = some strSTA →
      match_sta msg = some none) := by
  intro msg money hnd hno
  have hamt : ∀ v, lookupKey TlvKey.AmountInMinorCurrencyUnit msg.data =
      some v → (rustParseU32 v).isSome := by
    intro v hv
    rw [hno] at hv
    cases hv
  refine ⟨?vrp, ?fin, ?sta⟩
  case vrp =>
    intro hmsg
    have hname : ∀ v, lookupKey TlvKey.MsgName msg.data = some v →
        utf8Valid v = true := by
      intro v hv
      rw [hmsg] at hv
      injection hv with hv
      subst hv
      decide
    unfold match_vrp
    rw [scanMsg_eq strVRP msg.data false none hnd hname hamt]
    simp [flagAfter, amountAfter, hmsg, hno]
  case fin =>
    intro hmsg
    have hname : ∀ v, lookupKey TlvKey.MsgName msg.data = some v →
        utf8Valid v = true := by
      intro v hv
      rw [hmsg] at hv
      injection hv with hv
      subst hv
      decide
    unfold match_fin
    rw [scanMsg_eq strFIN msg.data false none hnd hname hamt]
    simp [flagAfter, amountAfter, hmsg, hno]
  case sta =>
    intro hmsg
    have hname : ∀ v, lookupKey TlvKey.MsgName msg.data = some v →
        utf8Valid v = true := by
      intro v hv
      rw [hmsg] at hv
      injection hv with hv
      subst hv
      decide
    unfold match_sta
    rw [scanMsg_eq strSTA msg.data false none hnd hname hamt]
    simp [flagAfter, amountAfter, hmsg, hno]

/-- Witness for C7: concrete messages carrying only the matching name and
no amount record. -/
theorem C7_missing_amount_witness :
    match_vrp ⟨[(TlvKey.MsgName, strVRP)]⟩ 5 = none ∧
    match_fin ⟨[(TlvKey.MsgName, strFIN)]⟩ 5 = none :=
  ⟨(C7_missing_amount ⟨[(TlvKey.MsgName, strVRP)]⟩ 5 (by simp [keysNodup])
      (by decide)).1 (by decide),
   (C7_missing_amount ⟨[(TlvKey.MsgName, strFIN)]⟩ 5 (by simp [keysNodup])
      (by decide)).2.1 (by decide)⟩

/-- C7 counterexample: the claim says a matching "STA" with absent amount
fails hard, but `match_sta` on `{MsgName: "STA"}` returns the normal
no-match result (`some none`), not the panic (`none`). -/
theorem C7_counterexample :
    match_sta ⟨[(TlvKey.MsgName, strSTA)]⟩ = some none ∧
    match_sta ⟨[(TlvKey.MsgName, strSTA)]⟩ ≠ none := by
  constructor
  · decide
  · decide

theorem setKey_ne_nil (k : TlvKey) (v : List Nat) :
    ∀ l : List (TlvKey × List Nat), setKey k v l ≠ [] := by
  intro l
  cases l with
  | nil => simp [setKey]
  | cons kv rest =>
    obtain ⟨k', v'⟩ := kv
    unfold setKey
    split <;> simp

theorem setKey_values_le (k : TlvKey) (v : List Nat)
    (r : List (TlvKey × List Nat)) (hv : v.length ≤ 255)
    (hb : ∀ kv ∈ r, kv.2.length ≤ 255) :
    ∀ kv ∈ setKey k v r, kv.2.length ≤ 255 := by
  intro kv hkv
  rcases mem_setKey k v r kv hkv with h | h
  · subst h; exact hv
  · exact hb kv h

theorem setKey_serialize_bound (name : List Nat)
    (r : List (TlvKey × List Nat)) (hnd : keysNodup r)
    (hb : ∀ kv ∈ r, kv.2.length ≤ 255) (hname : name.length ≤ 255) :
    (Tlv.serialize ⟨setKey TlvKey.MsgName name r⟩).length + 2 < 65536 := by
  have hnd' : keysNodup (setKey TlvKey.MsgName name r) :=
    keysNodup_setKey TlvKey.MsgName name r hnd
  have hb' := setKey_values_le TlvKey.MsgName name r hname hb
  have h1 := serialize_length_le (setKey TlvKey.MsgName name r) hb'
  have h2 := nodup_length_le_19 (setKey TlvKey.MsgName name r) hnd'
  omega

/-- C2: the encoded frame is exactly: start marker 0x1F, a two-byte
big-endian length equal to 2 plus the length of the serialized records
(no truncation occurs: with unique keys and values of at most 255 bytes
the length always fits 16 bits), magic 0x96 0xFB, the serialized record
set with the message-name record inserted (overwriting any prior value
under that key and leaving every other key untouched), and the two-byte
big-endian CRC16 over every byte from the start marker through the end of
the serialized records — not over the CRC bytes themselves
(`specFrameLayout` spells out exactly this layout in the spec's words). -/
theorem C2_frame_layout :
    ∀ (name : List Nat) (r : List (TlvKey × List Nat)),
    keysNodup r → (∀ kv ∈ r, kv.2.length ≤ 255) → name.length ≤ 255 →
    frameBytes name ⟨r⟩ = specFrameLayout name r ∧
    (Tlv.serialize ⟨setKey TlvKey.MsgName name r⟩).length + 2 < 65536 ∧
    ((Tlv.serialize ⟨setKey TlvKey.MsgName name r⟩).length + 2) / 256 < 256 ∧
    get_crc ([0x1F,
      ((Tlv.serialize ⟨setKey TlvKey.MsgName name r⟩).length + 2) / 256,
      ((Tlv.serialize ⟨setKey TlvKey.MsgName name r⟩).length + 2) % 256,
      0x96, 0xFB] ++ Tlv.serialize ⟨setKey TlvKey.MsgName name r⟩) < 65536 ∧
    lookupKey TlvKey.MsgName (setKey TlvKey.MsgName name r) = some name ∧
    (∀ k, k ≠ TlvKey.MsgName →
      lookupKey k (setKey TlvKey.MsgName name r) = lookupKey k r) := by
  intro name r hnd hb hname
  have hbound := setKey_serialize_bound name r hnd hb hname
  refine ⟨?_, hbound, by omega, get_crc_lt _, lookupKey_setKey_self _ _ _,
    fun k hk => lookupKey_setKey_ne TlvKey.MsgName k name
      (fun he => hk he.symm) r⟩
  simp only [frameBytes, specFrameLayout, Tlv.set_bin]
  rw [Nat.mod_eq_of_lt hbound]

/-- Witness for C2 at message name "STA" and the empty record set. -/
theorem C2_frame_layout_witness :
    frameBytes strSTA ⟨[]⟩ = specFrameLayout strSTA [] ∧
    (Tlv.serialize ⟨setKey TlvKey.MsgName strSTA []⟩).length + 2 < 65536 ∧
    ((Tlv.serialize ⟨setKey TlvKey.MsgName strSTA []⟩).length + 2) / 256 < 256 ∧
    get_crc ([0x1F,
      ((Tlv.serialize ⟨setKey TlvKey.MsgName strSTA []⟩).length + 2) / 256,
      ((Tlv.serialize ⟨setKey TlvKey.MsgName strSTA []⟩).length + 2) % 256,
      0x96, 0xFB] ++ Tlv.serialize ⟨setKey TlvKey.MsgName strSTA []⟩) < 65536 ∧
    lookupKey TlvKey.MsgName (setKey TlvKey.MsgName strSTA []) = some strSTA ∧
    (∀ k, k ≠ TlvKey.MsgName →
      lookupKey k (setKey TlvKey.MsgName strSTA []) = lookupKey k []) :=
  C2_frame_layout strSTA [] (by simp [keysNodup]) (by simp) (by decide)

/-- C5: an inbound record set whose message-name field is "STA" and whose
amount field parses as an unsigned integer, processed while the session is
idle (all flags clear), stores that amount as the pending amount, sets the
started flag (stage `Started`) and emits exactly one "VRP" message
carrying that same amount and the operation counter incremented by one,
both as decimal text. -/
theorem C5_sta_starts_session :
    ∀ (msg : Tlv) (opn n : Nat) (av : List Nat),
    keysNodup msg.data →
    lookupKey TlvKey.MsgName msg.data = some strSTA →
    lookupKey TlvKey.AmountInMinorCurrencyUnit msg.data = some av →
    rustParseU32 av = some n →
    loopBody ⟨⟨opn⟩, 0, false, false, false⟩ msg =
      some (⟨⟨opn + 1⟩, n, true, false, false⟩,
        [(strVRP, ⟨[(TlvKey.AmountInMinorCurrencyUnit, natToDecimal n),
                    (TlvKey.OperationNum, natToDecimal (opn + 1))]⟩)]) := by
  intro msg opn n av hnd hmsg hav hparse
  have hname : ∀ v, lookupKey TlvKey.MsgName msg.data = some v →
      utf8Valid v = true := by
    intro v hv
    rw [hmsg] at hv
    injection hv with hv
    subst hv
    decide
  have hamt : ∀ v, lookupKey TlvKey.AmountInMinorCurrencyUnit msg.data =
      some v → (rustParseU32 v).isSome := by
    intro v hv
    rw [hav] at hv
    injection hv with hv
    subst hv
    simp [hparse]
  have hsta : match_sta msg = some (some n) := by
    unfold match_sta
    rw [scanMsg_eq strSTA msg.data false none hnd hname hamt]
    simp [flagAfter, amountAfter, hmsg, hav, hparse]
  have hvrp : match_vrp msg n = some false := by
    unfold match_vrp
    rw [scanMsg_eq strVRP msg.data false none hnd hname hamt]
    simp [flagAfter, amountAfter, hmsg, hav, hparse, strSTA, strVRP]
  unfold loopBody
  rw [hsta]
  simp [Vtk.send_vrp, Tlv.set_bin, Tlv.new, setKey, hvrp]

/-- Witness for C5: the spec's happy-path instance, amount "150", counter
7. -/
theorem C5_sta_starts_session_witness :
    loopBody ⟨⟨7⟩, 0, false, false, false⟩
        ⟨[(TlvKey.MsgName, strSTA),
          (TlvKey.AmountInMinorCurrencyUnit, [49, 53, 48])]⟩ =
      some (⟨⟨7 + 1⟩, 150, true, false, false⟩,
        [(strVRP, ⟨[(TlvKey.AmountInMinorCurrencyUnit, natToDecimal 150),
                    (TlvKey.OperationNum, natToDecimal (7 + 1))]⟩)]) :=
  C5_sta_starts_session
    ⟨[(TlvKey.MsgName, strSTA),
      (TlvKey.AmountInMinorCurrencyUnit, [49, 53, 48])]⟩ 7 150 [49, 53, 48]
    (by unfold keysNodup; decide) (by decide) (by decide) (by decide)

theorem frame_decode_general (M : List (TlvKey × List Nat)) (crc : Nat)
    (hndM : keysNodup M) (hbM : ∀ kv ∈ M, kv.2.length ≤ 255) :
    Tlv.deserialize (((([0x1F, ((Tlv.serialize ⟨M⟩).length + 2) / 256,
        ((Tlv.serialize ⟨M⟩).length + 2) % 256, 0x96, 0xFB] ++
        Tlv.serialize ⟨M⟩) ++ [crc / 256, crc % 256]) ++
        List.replicate (505 - (Tlv.serialize ⟨M⟩).length) 0).drop 5) =
      ⟨if crc % 256 ≤ 505 - (Tlv.serialize ⟨M⟩).length
        then accInsert M (crc / 256)
          (List.replicate (crc % 256) 0)
        else M⟩ := by
  have hre : ((([0x1F, ((Tlv.serialize ⟨M⟩).length + 2) / 256,
      ((Tlv.serialize ⟨M⟩).length + 2) % 256, 0x96, 0xFB] ++
      Tlv.serialize ⟨M⟩) ++ [crc / 256, crc % 256]) ++
      List.replicate (505 - (Tlv.serialize ⟨M⟩).length) 0)
      = [0x1F, ((Tlv.serialize ⟨M⟩).length + 2) / 256,
          ((Tlv.serialize ⟨M⟩).length + 2) % 256, 0x96, 0xFB] ++
        (Tlv.serialize ⟨M⟩ ++ ([crc / 256, crc % 256] ++
          List.replicate (505 - (Tlv.serialize ⟨M⟩).length) 0)) := by
    simp [List.append_assoc]
  rw [hre, List.drop_left' (by simp)]
  unfold Tlv.deserialize
  rw [deserRun_serialize_nodup M _ hndM hbM,
      deserRun_crc_tail (crc / 256) (crc % 256)
        (505 - (Tlv.serialize ⟨M⟩).length) M]

/-- C1 (amended): decoding the 512-byte receive buffer holding a frame
produced by the frame encoder recovers every record of r — plus the
injected message-name record — with its exact value (first conjunct);
however, the two trailing CRC bytes and the zero padding after them
contribute at most one extra record, exactly characterized by the second
conjunct: when the CRC's high byte is a known key byte that is not
already present and the CRC's low byte is at most the number of padding
bytes, a spurious record mapping that key to that many zero bytes is
appended (that is what `accInsert` does), and otherwise nothing is added.
The original claim's "the CRC bytes never contribute a record" is refuted
by the counterexample. -/
theorem C1_frame_roundtrip :
    ∀ (name : List Nat) (r : List (TlvKey × List Nat)),
    keysNodup r → (∀ kv ∈ r, kv.2.length ≤ 255) → name.length ≤ 255 →
    (frameBytes name ⟨r⟩).length ≤ 512 →
    ∀ (m' : List (TlvKey × List Nat)) (ser : List Nat) (crc : Nat),
    m' = setKey TlvKey.MsgName name r →
    ser = Tlv.serialize ⟨m'⟩ →
    crc = get_crc ([0x1F, (ser.length + 2) / 256, (ser.length + 2) % 256,
      0x96, 0xFB] ++ ser) →
    (∀ k v, lookupKey k m' = some v →
      lookupKey k (Tlv.deserialize ((frameBytes name ⟨r⟩ ++
        List.replicate (512 - (frameBytes name ⟨r⟩).length) 0).drop 5)).data =
          some v) ∧
    Vtk.receive (frameBytes name ⟨r⟩) = Except.ok
      ⟨if crc % 256 ≤ 505 - ser.length
        then accInsert m' (crc / 256) (List.replicate (crc % 256) 0)
        else m'⟩ := by
  intro name r hnd hb hname hfit m' ser crc hm hser hcrc
  subst hm
  subst hser
  subst hcrc
  have hndM := keysNodup_setKey TlvKey.MsgName name r hnd
  have hbM := setKey_values_le TlvKey.MsgName name r hname hb
  have hbound := setKey_serialize_bound name r hnd hb hname
  have hser2 : 2 ≤ (Tlv.serialize ⟨setKey TlvKey.MsgName name r⟩).length :=
    serialize_length_ge_2 _ (setKey_ne_nil TlvKey.MsgName name r)
  have hframe : frameBytes name ⟨r⟩ =
      (([0x1F, ((Tlv.serialize ⟨setKey TlvKey.MsgName name r⟩).length + 2) / 256,
        ((Tlv.serialize ⟨setKey TlvKey.MsgName name r⟩).length + 2) % 256,
        0x96, 0xFB] ++ Tlv.serialize ⟨setKey TlvKey.MsgName name r⟩) ++
      [get_crc ([0x1F,
        ((Tlv.serialize ⟨setKey TlvKey.MsgName name r⟩).length + 2) / 256,
        ((Tlv.serialize ⟨setKey TlvKey.MsgName name r⟩).length + 2) % 256,
        0x96, 0xFB] ++ Tlv.serialize ⟨setKey TlvKey.MsgName name r⟩) / 256,
       get_crc ([0x1F,
        ((Tlv.serialize ⟨setKey TlvKey.MsgName name r⟩).length + 2) / 256,
        ((Tlv.serialize ⟨setKey TlvKey.MsgName name r⟩).length + 2) % 256,
        0x96, 0xFB] ++ Tlv.serialize ⟨setKey TlvKey.MsgName name r⟩) % 256]) := by
    simp only [frameBytes, Tlv.set_bin]
    rw [Nat.mod_eq_of_lt hbound]
  have hlen : (frameBytes name ⟨r⟩).length =
      (Tlv.serialize ⟨setKey TlvKey.MsgName name r⟩).length + 7 := by
    rw [hframe]
    simp only [List.length_append, List.length_cons, List.length_nil]
    omega
  have hpad : 512 - (frameBytes name ⟨r⟩).length =
      505 - (Tlv.serialize ⟨setKey TlvKey.MsgName name r⟩).length := by
    omega
  have hchain : Tlv.deserialize ((frameBytes name ⟨r⟩ ++
      List.replicate (512 - (frameBytes name ⟨r⟩).length) 0).drop 5) =
      ⟨if (get_crc ([0x1F,
          ((Tlv.serialize ⟨setKey TlvKey.MsgName name r⟩).length + 2) / 256,
          ((Tlv.serialize ⟨setKey TlvKey.MsgName name r⟩).length + 2) % 256,
          0x96, 0xFB] ++ Tlv.serialize ⟨setKey TlvKey.MsgName name r⟩)) % 256 ≤
            505 - (Tlv.serialize ⟨setKey TlvKey.MsgName name r⟩).length
        then accInsert (setKey TlvKey.MsgName name r)
          ((get_crc ([0x1F,
            ((Tlv.serialize ⟨setKey TlvKey.MsgName name r⟩).length + 2) / 256,
            ((Tlv.serialize ⟨setKey TlvKey.MsgName name r⟩).length + 2) % 256,
            0x96, 0xFB] ++ Tlv.serialize ⟨setKey TlvKey.MsgName name r⟩)) / 256)
          (List.replicate ((get_crc ([0x1F,
            ((Tlv.serialize ⟨setKey TlvKey.MsgName name r⟩).length + 2) / 256,
            ((Tlv.serialize ⟨setKey TlvKey.MsgName name r⟩).length + 2) % 256,
            0x96, 0xFB] ++
              Tlv.serialize ⟨setKey TlvKey.MsgName name r⟩)) % 256) 0)
        else setKey TlvKey.MsgName name r⟩ := by
    rw [hpad, hframe]
    exact frame_decode_general (setKey TlvKey.MsgName name r) _ hndM hbM
  constructor
  · intro k v hkv
    rw [hchain]
    split
    · exact accInsert_preserves _ _ hkv
    · exact hkv
  · unfold Vtk.receive
    rw [if_neg (by omega)]
    rw [hchain]

/-- Witness for C1 at message name "STA" and the empty record set. -/
theorem C1_frame_roundtrip_witness :
    (∀ k v, lookupKey k (setKey TlvKey.MsgName strSTA []) = some v →
      lookupKey k (Tlv.deserialize ((frameBytes strSTA ⟨[]⟩ ++
        List.replicate (512 - (frameBytes strSTA ⟨[]⟩).length) 0).drop 5)).data =
          some v) ∧
    Vtk.receive (frameBytes strSTA ⟨[]⟩) = Except.ok
      ⟨if (get_crc ([0x1F,
          ((Tlv.serialize ⟨setKey TlvKey.MsgName strSTA []⟩).length + 2) / 256,
          ((Tlv.serialize ⟨setKey TlvKey.MsgName strSTA []⟩).length + 2) % 256,
          0x96, 0xFB] ++ Tlv.serialize ⟨setKey TlvKey.MsgName strSTA []⟩)) % 256 ≤
            505 - (Tlv.serialize ⟨setKey TlvKey.MsgName strSTA []⟩).length
        then accInsert (setKey TlvKey.MsgName strSTA [])
          ((get_crc ([0x1F,
            ((Tlv.serialize ⟨setKey TlvKey.MsgName strSTA []⟩).length + 2) / 256,
            ((Tlv.serialize ⟨setKey TlvKey.MsgName strSTA []⟩).length + 2) % 256,
            0x96, 0xFB] ++ Tlv.serialize ⟨setKey TlvKey.MsgName strSTA []⟩)) / 256)
          (List.replicate ((get_crc ([0x1F,
            ((Tlv.serialize ⟨setKey TlvKey.MsgName strSTA []⟩).length + 2) / 256,
            ((Tlv.serialize ⟨setKey TlvKey.MsgName strSTA []⟩).length + 2) % 256,
            0x96, 0xFB] ++
              Tlv.serialize ⟨setKey TlvKey.MsgName strSTA []⟩)) % 256) 0)
        else setKey TlvKey.MsgName strSTA []⟩ :=
  C1_frame_roundtrip strSTA [] (by simp [keysNodup]) (by simp) (by decide)
    (by decide) _ _ _ rfl rfl rfl

set_option maxRecDepth 40000 in
set_option maxHeartbeats 1000000 in
/-- C1 counterexample: for message name "Z" (byte 0x5A) and the empty
record set, the frame's CRC is 0x03AA; its high byte 0x03 is the known
key OperationNum, absent from the encoded records, so decoding the
received frame yields a spurious record `OperationNum ↦ 170 zero bytes`
on top of the injected message-name record — the decode does not recover
exactly the encoded record set. -/
theorem C1_counterexample :
    lookupKey TlvKey.OperationNum (setKey TlvKey.MsgName [0x5A] []) = none ∧
    Vtk.receive (frameBytes [0x5A] ⟨[]⟩) = Except.ok
      ⟨[(TlvKey.MsgName, [0x5A]),
        (TlvKey.OperationNum, List.replicate 170 0)]⟩ ∧
    Vtk.receive (frameBytes [0x5A] ⟨[]⟩) ≠
      Except.ok ⟨setKey TlvKey.MsgName [0x5A] []⟩ := by
  have hdecode : Vtk.receive (frameBytes [0x5A] ⟨[]⟩) = Except.ok
      ⟨[(TlvKey.MsgName, [0x5A]),
        (TlvKey.OperationNum, List.replicate 170 0)]⟩ := by
    rfl
  refine ⟨by decide, hdecode, ?_⟩
  intro he
  rw [hdecode] at he
  injection he with he
  exact absurd (congrArg Tlv.data he) (by decide)
